import Mathlib

set_option maxRecDepth 4000

/-!
Verification of the Laplace-coefficient library.

The repository computes Laplace coefficients b_s^j(α) and their derivatives.
We give a shallow embedding of the two parallel implementations:

* `Coefficients` embeds `src/laplace/coefficients.py`
  (`_validate_inputs`, `lc`, `dnlc`);
* `LaplaceMod` embeds `src/laplace/laplace.py` (`lc`, `dnlc`).

Numbers are modelled by `ℚ` (exact arithmetic standing for Python floats).
The external numeric library (scipy's `hyp2f1`, `quad`, numpy's `cos`,
float `power`, and the constant `pi`) is abstracted as a bundle of oracle
functions `NumLib`; every theorem is universally quantified over the bundle,
and witnesses instantiate it with a concrete computable member.

The `ValueError`s raised by the Python code are modelled by the error type
`LapErr`; the three distinct messages in the source map to the three
constructors (`invalidMethod` for "method must be ... ", `invalidDomainAlpha`
for "semi-major axis ratio ... must be between 0 and 1", `invalidDomainS`
for "s must be a positive half-integer").  Fallible functions return
`Except LapErr ℚ`; Python exception propagation is the error-propagating
`match` in each definition.
-/

/-- The external numeric library, abstracted: `hyp2f1 a b c z` is scipy's
Gauss hypergeometric function, `quad f lo hi` is scipy's adaptive quadrature
of `f` over `[lo, hi]` (the source discards the error estimate), `cos` is
`np.cos`, `fpow x y` is `np.power x y` for a non-integer exponent `y`, and
`pi` is `np.pi`. -/
structure NumLib where
  hyp2f1 : ℚ → ℚ → ℚ → ℚ → ℚ
  quad : (ℚ → ℚ) → ℚ → ℚ → ℚ
  cos : ℚ → ℚ
  fpow : ℚ → ℚ → ℚ
  pi : ℚ

/-- The `ValueError`s raised by the source, one constructor per distinct
message. `invalidMethod` is the spec's InvalidMethod error; the other two
are the spec's InvalidDomain errors. -/
inductive LapErr where
  | invalidMethod : LapErr
  | invalidDomainAlpha : LapErr
  | invalidDomainS : LapErr
deriving DecidableEq

/-- Is the error one of the two InvalidDomain errors of the spec? -/
def LapErr.isDomain : LapErr → Bool
  | .invalidMethod => false
  | .invalidDomainAlpha => true
  | .invalidDomainS => true

instance : DecidableEq (Except LapErr ℚ) := fun a b =>
  match a, b with
  | .error x, .error y => decidable_of_iff (x = y) (by simp)
  | .ok x, .ok y => decidable_of_iff (x = y) (by simp)
  | .error _, .ok _ => isFalse (fun h => Except.noConfusion h)
  | .ok _, .error _ => isFalse (fun h => Except.noConfusion h)

/-- Signed 64-bit wraparound: the representative of `x` modulo `2^64` lying
in `[−2^63, 2^63)`.  Models numpy's int64 arithmetic, which overflows
silently. -/
def toInt64 (x : ℤ) : ℤ := (x + 2 ^ 63) % 2 ^ 64 - 2 ^ 63

/-- `np.prod` over an int64 array: a fold of wrapping int64 multiplication,
the empty product being 1.  (Wrapping multiplication modulo `2^64` is
associative, so the fold order does not affect the value.) -/
def int64prod (l : List ℤ) : ℤ := l.foldl (fun acc x => toInt64 (acc * x)) 1

namespace Coefficients

/-- `_validate_inputs` of `src/laplace/coefficients.py`: method must be
`"hyper"` or `"brute"`, then `alpha > 1` is rejected, then `s < 0` is
rejected, in that order. -/
def validate_inputs (alpha s : ℚ) (method : String) : Except LapErr Unit :=
  if ¬(method = "hyper" ∨ method = "brute") then .error .invalidMethod
  else if alpha > 1 then .error .invalidDomainAlpha
  else if s < 0 then .error .invalidDomainS
  else .ok ()

/-- `lc` of `src/laplace/coefficients.py`.  After validation, the `"hyper"`
branch replaces `j` by `|j|`, computes `p = np.prod(np.arange(1, j+1))`
(`np.arange` with integer bounds is an int64 array and `np.prod` reduces it
in int64, so `p` is the factorial of `j` computed with silent wraparound —
exact only up to `j = 20` — modelled by `int64prod`) and
`q = np.prod(np.arange(s, s+j))` (the float product
`s(s+1)⋯(s+j−1)`; `np.arange` with unit step from `s` to `s+j` lists exactly
those `j` terms and `np.prod` of an empty array is `1`), and returns
`2 (q/p) α^j ₂F₁(s, s+j; j+1; α²)`.  Otherwise (validation guarantees the
method is then `"brute"`) it integrates
`cos(jθ) (1 − 2α cos θ + α²)^(−s)` over `[0, 2π]` and divides by `π`. -/
def lc (L : NumLib) (alpha s : ℚ) (j : ℤ) (method : String) : Except LapErr ℚ :=
  match validate_inputs alpha s method with
  | .error e => .error e
  | .ok _ =>
    if method = "hyper" then
      let j2 : ℕ := j.natAbs
      let p : ℚ := ((int64prod ((List.range j2).map (fun i : ℕ => (i : ℤ) + 1))) : ℚ)
      let q : ℚ := (((List.range j2).map (fun i : ℕ => s + (i : ℚ))).prod)
      .ok (2 * (q / p) * alpha ^ j2 * L.hyp2f1 s (s + (j2 : ℚ)) ((j2 : ℚ) + 1) (alpha * alpha))
    else
      let integrand : ℚ → ℚ :=
        fun t => L.cos ((j : ℚ) * t) * L.fpow (1 - 2 * alpha * L.cos t + alpha * alpha) (-s)
      .ok (L.quad integrand 0 (2 * L.pi) / L.pi)

/-- `dnlc` of `src/laplace/coefficients.py`: validate, then for `n ≤ 0`
return `max(0, n+1) * lc(...)`, and for `n > 0` recurse with the four-term
formula `s (D^{n−1}b_{s+1}^{j−1} − 2α D^{n−1}b_{s+1}^{j} + D^{n−1}b_{s+1}^{j+1}
− 2(n−1) D^{n−2}b_{s+1}^{j})`, each sub-call re-entering this function (and
hence its validation) with the same `method`.  The error cases propagate the
first exception in Python's left-to-right evaluation order. -/
def dnlc (L : NumLib) (alpha s : ℚ) (j n : ℤ) (method : String) : Except LapErr ℚ :=
  match validate_inputs alpha s method with
  | .error e => .error e
  | .ok _ =>
    if n ≤ 0 then
      match lc L alpha s j method with
      | .error e => .error e
      | .ok x => .ok (((max 0 (n + 1) : ℤ) : ℚ) * x)
    else
      match dnlc L alpha (s + 1) (j - 1) (n - 1) method,
            dnlc L alpha (s + 1) j (n - 1) method,
            dnlc L alpha (s + 1) (j + 1) (n - 1) method,
            dnlc L alpha (s + 1) j (n - 2) method with
      | .error e, _, _, _ => .error e
      | _, .error e, _, _ => .error e
      | _, _, .error e, _ => .error e
      | _, _, _, .error e => .error e
      | .ok x1, .ok x2, .ok x3, .ok x4 =>
        .ok (s * (x1 - 2 * alpha * x2 + x3 - 2 * ((n : ℚ) - 1) * x4))
termination_by n.toNat
decreasing_by all_goals omega

/-- The value `lc` computes once validation has passed. -/
def lcVal (L : NumLib) (alpha s : ℚ) (j : ℤ) (method : String) : ℚ :=
  if method = "hyper" then
    2 * ((((List.range j.natAbs).map (fun i : ℕ => s + (i : ℚ))).prod) /
         ((int64prod ((List.range j.natAbs).map (fun i : ℕ => (i : ℤ) + 1))) : ℚ)) *
      alpha ^ j.natAbs *
      L.hyp2f1 s (s + (j.natAbs : ℚ)) ((j.natAbs : ℚ) + 1) (alpha * alpha)
  else
    L.quad (fun t => L.cos ((j : ℚ) * t) * L.fpow (1 - 2 * alpha * L.cos t + alpha * alpha) (-s))
      0 (2 * L.pi) / L.pi

end Coefficients

namespace LaplaceMod

/-- `lc` of `src/laplace/laplace.py`: the same three validation checks are
inlined at the top of the function (the raised messages differ only by a
trailing period, so they map to the same `LapErr` constructors), then the
`"hyper"` and `"brute"` branches compute exactly as in
`Coefficients.lc` — in particular `p` is the same wrapping int64 factorial
product.  The Python falls through to an implicit `return None`
if the method were neither string, but validation has already rejected that
case, so the fall-through is dead code and the `"brute"` branch is the
final `else`. -/
def lc (L : NumLib) (a s : ℚ) (j : ℤ) (method : String) : Except LapErr ℚ :=
  if ¬(method = "hyper" ∨ method = "brute") then .error .invalidMethod
  else if a > 1 then .error .invalidDomainAlpha
  else if s < 0 then .error .invalidDomainS
  else if method = "hyper" then
    let j2 : ℕ := j.natAbs
    let p : ℚ := ((int64prod ((List.range j2).map (fun i : ℕ => (i : ℤ) + 1))) : ℚ)
    let q : ℚ := (((List.range j2).map (fun i : ℕ => s + (i : ℚ))).prod)
    .ok (2 * (q / p) * a ^ j2 * L.hyp2f1 s (s + (j2 : ℚ)) ((j2 : ℚ) + 1) (a * a))
  else
    let db : ℚ → ℚ :=
      fun t => L.cos ((j : ℚ) * t) * L.fpow (1 - 2 * a * L.cos t + a * a) (-s)
    .ok (L.quad db 0 (2 * L.pi) / L.pi)

/-- `dnlc` of `src/laplace/laplace.py`: identical recursion to
`Coefficients.dnlc` except that there is no validation call at the top —
only the leaf `lc` calls validate. -/
def dnlc (L : NumLib) (a s : ℚ) (j n : ℤ) (method : String) : Except LapErr ℚ :=
  if n ≤ 0 then
    match lc L a s j method with
    | .error e => .error e
    | .ok x => .ok (((max 0 (n + 1) : ℤ) : ℚ) * x)
  else
    match dnlc L a (s + 1) (j - 1) (n - 1) method,
          dnlc L a (s + 1) j (n - 1) method,
          dnlc L a (s + 1) (j + 1) (n - 1) method,
          dnlc L a (s + 1) j (n - 2) method with
    | .error e, _, _, _ => .error e
    | _, .error e, _, _ => .error e
    | _, _, .error e, _ => .error e
    | _, _, _, .error e => .error e
    | .ok x1, .ok x2, .ok x3, .ok x4 =>
      .ok (s * (x1 - 2 * a * x2 + x3 - 2 * ((n : ℚ) - 1) * x4))
termination_by n.toNat
decreasing_by all_goals omega

end LaplaceMod

/-- A concrete computable member of `NumLib`, used to instantiate the
universally quantified oracle bundle in witnesses.  Its `cos` is even, as
the real cosine is. -/
def testLib : NumLib where
  hyp2f1 := fun a b c z => a + b + c + z
  quad := fun f _ hi => f hi
  cos := fun x => x * x
  fpow := fun x y => x + y
  pi := 3

/-- The depth of the call tree of `dnlc` at derivative order `n`: `0` once
the base case `n ≤ 0` fires, otherwise one more than the deepest of the four
sub-calls (three at order `n−1`, one at order `n−2`). -/
def recDepth (n : ℤ) : ℕ :=
  if n ≤ 0 then 0
  else 1 + max (max (recDepth (n - 1)) (recDepth (n - 1)))
               (max (recDepth (n - 1)) (recDepth (n - 2)))
termination_by n.toNat
decreasing_by all_goals omega

/-- The rising factorial `(s)_k = s (s+1) ⋯ (s+k−1)`, the product of `k`
consecutive terms starting at `s`, an empty product being `1`.  Written
exactly as the specification describes it, to be compared with the
`np.prod(np.arange(s, s+j))` expression of the source. -/
def risingFactorial (s : ℚ) : ℕ → ℚ
  | 0 => 1
  | k + 1 => risingFactorial s k * (s + (k : ℚ))

namespace Coefficients

theorem validate_ok_iff (alpha s : ℚ) (m : String) :
    validate_inputs alpha s m = .ok () ↔
      ((m = "hyper" ∨ m = "brute") ∧ alpha ≤ 1 ∧ 0 ≤ s) := by
  unfold validate_inputs
  constructor
  · intro h
    by_cases h1 : (m = "hyper" ∨ m = "brute")
    · by_cases h2 : alpha ≤ 1
      · by_cases h3 : 0 ≤ s
        · exact ⟨h1, h2, h3⟩
        · rw [if_neg (not_not_intro h1), if_neg (not_lt.mpr h2), if_pos (not_le.mp h3)] at h
          cases h
      · rw [if_neg (not_not_intro h1), if_pos (not_le.mp h2)] at h
        cases h
    · rw [if_pos h1] at h
      cases h
  · rintro ⟨hm, ha, hs⟩
    rw [if_neg (not_not_intro hm), if_neg (not_lt.mpr ha), if_neg (not_lt.mpr hs)]

theorem validate_succ (alpha s : ℚ) (m : String)
    (hv : validate_inputs alpha s m = .ok ()) :
    validate_inputs alpha (s + 1) m = .ok () := by
  rw [validate_ok_iff] at hv ⊢
  obtain ⟨h1, h2, h3⟩ := hv
  exact ⟨h1, h2, by linarith⟩

theorem lc_error (L : NumLib) (alpha s : ℚ) (j : ℤ) (m : String) (e : LapErr)
    (hv : validate_inputs alpha s m = .error e) :
    lc L alpha s j m = .error e := by
  rw [lc, hv]

theorem dnlc_of_validate_error (L : NumLib) (alpha s : ℚ) (j n : ℤ) (m : String) (e : LapErr)
    (hv : validate_inputs alpha s m = .error e) :
    dnlc L alpha s j n m = .error e := by
  rw [dnlc, hv]

theorem lc_ok (L : NumLib) (alpha s : ℚ) (j : ℤ) (m : String)
    (hv : validate_inputs alpha s m = .ok ()) :
    lc L alpha s j m = .ok (lcVal L alpha s j m) := by
  rw [lc, hv, lcVal]
  by_cases hm : m = "hyper"
  · simp [hm]
  · simp [hm]

theorem dnlc_base (L : NumLib) (alpha s : ℚ) (j n : ℤ) (m : String)
    (hn : n ≤ 0)
    (hv : validate_inputs alpha s m = .ok ()) :
    dnlc L alpha s j n m = .ok (((max 0 (n + 1) : ℤ) : ℚ) * lcVal L alpha s j m) := by
  rw [dnlc, hv]
  simp only [hn, if_pos, lc_ok L alpha s j m hv]

theorem dnlc_step (L : NumLib) (alpha s : ℚ) (j n : ℤ) (m : String)
    (x1 x2 x3 x4 : ℚ)
    (hn : 0 < n)
    (hv : validate_inputs alpha s m = .ok ())
    (h1 : dnlc L alpha (s + 1) (j - 1) (n - 1) m = .ok x1)
    (h2 : dnlc L alpha (s + 1) j (n - 1) m = .ok x2)
    (h3 : dnlc L alpha (s + 1) (j + 1) (n - 1) m = .ok x3)
    (h4 : dnlc L alpha (s + 1) j (n - 2) m = .ok x4) :
    dnlc L alpha s j n m = .ok (s * (x1 - 2 * alpha * x2 + x3 - 2 * ((n : ℚ) - 1) * x4)) := by
  rw [dnlc, hv]
  have hn' : ¬ n ≤ 0 := by omega
  simp only [hn', if_neg, h1, h2, h3, h4]
  rfl

theorem dnlc_ok_aux (L : NumLib) :
    ∀ (k : ℕ) (s : ℚ) (j n : ℤ), n.toNat ≤ k → ∀ (alpha : ℚ) (m : String),
      validate_inputs alpha s m = .ok () → ∃ x, dnlc L alpha s j n m = .ok x := by
  intro k
  induction k with
  | zero =>
    intro s j n hk alpha m hv
    exact ⟨_, dnlc_base L alpha s j n m (by omega) hv⟩
  | succ k ih =>
    intro s j n hk alpha m hv
    by_cases hn : n ≤ 0
    · exact ⟨_, dnlc_base L alpha s j n m hn hv⟩
    · have hv' := validate_succ alpha s m hv
      obtain ⟨x1, h1⟩ := ih (s + 1) (j - 1) (n - 1) (by omega) alpha m hv'
      obtain ⟨x2, h2⟩ := ih (s + 1) j (n - 1) (by omega) alpha m hv'
      obtain ⟨x3, h3⟩ := ih (s + 1) (j + 1) (n - 1) (by omega) alpha m hv'
      obtain ⟨x4, h4⟩ := ih (s + 1) j (n - 2) (by omega) alpha m hv'
      exact ⟨_, dnlc_step L alpha s j n m x1 x2 x3 x4 (by omega) hv h1 h2 h3 h4⟩

theorem dnlc_ok (L : NumLib) (alpha s : ℚ) (j n : ℤ) (m : String)
    (hv : validate_inputs alpha s m = .ok ()) :
    ∃ x, dnlc L alpha s j n m = .ok x :=
  dnlc_ok_aux L n.toNat s j n le_rfl alpha m hv

end Coefficients

namespace LaplaceMod

theorem lc_agrees (L : NumLib) (a s : ℚ) (j : ℤ) (m : String) :
    LaplaceMod.lc L a s j m = Coefficients.lc L a s j m := by
  unfold LaplaceMod.lc Coefficients.lc Coefficients.validate_inputs
  by_cases h1 : (m = "hyper" ∨ m = "brute") <;>
    by_cases h2 : a > 1 <;>
      by_cases h3 : s < 0 <;>
        simp [h1, h2, h3]

theorem dnlc_base_noval (L : NumLib) (a s : ℚ) (j n : ℤ) (m : String)
    (hn : n ≤ 0)
    (hv : Coefficients.validate_inputs a s m = .ok ()) :
    LaplaceMod.dnlc L a s j n m =
      .ok (((max 0 (n + 1) : ℤ) : ℚ) * Coefficients.lcVal L a s j m) := by
  rw [LaplaceMod.dnlc]
  simp only [hn, if_pos, lc_agrees, Coefficients.lc_ok L a s j m hv]

theorem dnlc_step_noval (L : NumLib) (a s : ℚ) (j n : ℤ) (m : String)
    (x1 x2 x3 x4 : ℚ)
    (hn : 0 < n)
    (h1 : LaplaceMod.dnlc L a (s + 1) (j - 1) (n - 1) m = .ok x1)
    (h2 : LaplaceMod.dnlc L a (s + 1) j (n - 1) m = .ok x2)
    (h3 : LaplaceMod.dnlc L a (s + 1) (j + 1) (n - 1) m = .ok x3)
    (h4 : LaplaceMod.dnlc L a (s + 1) j (n - 2) m = .ok x4) :
    LaplaceMod.dnlc L a s j n m =
      .ok (s * (x1 - 2 * a * x2 + x3 - 2 * ((n : ℚ) - 1) * x4)) := by
  rw [LaplaceMod.dnlc]
  have hn' : ¬ n ≤ 0 := by omega
  simp only [hn', if_neg, h1, h2, h3, h4]
  rfl

theorem dnlc_agrees_aux (L : NumLib) :
    ∀ (k : ℕ) (s : ℚ) (j n : ℤ), n.toNat ≤ k → ∀ (a : ℚ) (m : String),
      Coefficients.validate_inputs a s m = .ok () →
      LaplaceMod.dnlc L a s j n m = Coefficients.dnlc L a s j n m := by
  intro k
  induction k with
  | zero =>
    intro s j n hk a m hv
    rw [dnlc_base_noval L a s j n m (by omega) hv, Coefficients.dnlc_base L a s j n m (by omega) hv]
  | succ k ih =>
    intro s j n hk a m hv
    by_cases hn : n ≤ 0
    · rw [dnlc_base_noval L a s j n m hn hv, Coefficients.dnlc_base L a s j n m hn hv]
    · have hv' := Coefficients.validate_succ a s m hv
      obtain ⟨x1, h1⟩ := Coefficients.dnlc_ok L a (s + 1) (j - 1) (n - 1) m hv'
      obtain ⟨x2, h2⟩ := Coefficients.dnlc_ok L a (s + 1) j (n - 1) m hv'
      obtain ⟨x3, h3⟩ := Coefficients.dnlc_ok L a (s + 1) (j + 1) (n - 1) m hv'
      obtain ⟨x4, h4⟩ := Coefficients.dnlc_ok L a (s + 1) j (n - 2) m hv'
      have e1 : LaplaceMod.dnlc L a (s + 1) (j - 1) (n - 1) m = .ok x1 := by
        rw [ih (s + 1) (j - 1) (n - 1) (by omega) a m hv']; exact h1
      have e2 : LaplaceMod.dnlc L a (s + 1) j (n - 1) m = .ok x2 := by
        rw [ih (s + 1) j (n - 1) (by omega) a m hv']; exact h2
      have e3 : LaplaceMod.dnlc L a (s + 1) (j + 1) (n - 1) m = .ok x3 := by
        rw [ih (s + 1) (j + 1) (n - 1) (by omega) a m hv']; exact h3
      have e4 : LaplaceMod.dnlc L a (s + 1) j (n - 2) m = .ok x4 := by
        rw [ih (s + 1) j (n - 2) (by omega) a m hv']; exact h4
      rw [dnlc_step_noval L a s j n m x1 x2 x3 x4 (by omega) e1 e2 e3 e4,
          Coefficients.dnlc_step L a s j n m x1 x2 x3 x4 (by omega) hv h1 h2 h3 h4]

theorem dnlc_agrees (L : NumLib) (a s : ℚ) (j n : ℤ) (m : String)
    (hv : Coefficients.validate_inputs a s m = .ok ()) :
    LaplaceMod.dnlc L a s j n m = Coefficients.dnlc L a s j n m :=
  dnlc_agrees_aux L n.toNat s j n le_rfl a m hv

end LaplaceMod

theorem prod_consecutive (s : ℚ) :
    ∀ k : ℕ, ((List.range k).map (fun i : ℕ => s + (i : ℚ))).prod = risingFactorial s k := by
  intro k
  induction k with
  | zero => rfl
  | succ k ih =>
    rw [List.range_succ, List.map_append, List.prod_append, ih]
    simp [risingFactorial]

theorem risingFactorial_pos (s : ℚ) (hs : 0 < s) :
    ∀ k : ℕ, 0 < risingFactorial s k := by
  intro k
  induction k with
  | zero => norm_num [risingFactorial]
  | succ k ih =>
    rw [risingFactorial]
    have hk : (0 : ℚ) < s + (k : ℚ) := by positivity
    exact mul_pos ih hk

theorem int64prod_factorial :
    ∀ k : ℕ, k ≤ 20 →
      int64prod ((List.range k).map (fun i : ℕ => (i : ℤ) + 1)) = (Nat.factorial k : ℤ) := by
  decide

theorem recDepth_eq_aux : ∀ (k : ℕ) (n : ℤ), n.toNat ≤ k → (recDepth n : ℤ) = max n 0 := by
  intro k
  induction k with
  | zero =>
    intro n hk
    rw [recDepth, if_pos (by omega : n ≤ 0)]
    push_cast
    omega
  | succ k ih =>
    intro n hk
    by_cases hn : n ≤ 0
    · rw [recDepth, if_pos hn]
      push_cast
      omega
    · rw [recDepth, if_neg hn]
      have e1 := ih (n - 1) (by omega)
      have e2 := ih (n - 2) (by omega)
      push_cast
      omega

/-- C1: for every valid input (recognized method, α ≤ 1, s ≥ 0) and every
n > 0, `dnlc(α, s, j, n, method)` equals
`s·(dnlc(α,s+1,j−1,n−1) − 2α·dnlc(α,s+1,j,n−1) + dnlc(α,s+1,j+1,n−1)
− 2(n−1)·dnlc(α,s+1,j,n−2))`, the same method being passed unchanged to all
four sub-calls, each of which succeeds. -/
theorem dnlc_recurrence (L : NumLib) (alpha s : ℚ) (j n : ℤ) (m : String)
    (hm : m = "hyper" ∨ m = "brute") (ha : alpha ≤ 1) (hs : 0 ≤ s) (hn : 0 < n) :
    ∃ x1 x2 x3 x4,
      Coefficients.dnlc L alpha (s + 1) (j - 1) (n - 1) m = .ok x1 ∧
      Coefficients.dnlc L alpha (s + 1) j (n - 1) m = .ok x2 ∧
      Coefficients.dnlc L alpha (s + 1) (j + 1) (n - 1) m = .ok x3 ∧
      Coefficients.dnlc L alpha (s + 1) j (n - 2) m = .ok x4 ∧
      Coefficients.dnlc L alpha s j n m =
        .ok (s * (x1 - 2 * alpha * x2 + x3 - 2 * ((n : ℚ) - 1) * x4)) := by
  have hv : Coefficients.validate_inputs alpha s m = .ok () :=
    (Coefficients.validate_ok_iff alpha s m).mpr ⟨hm, ha, hs⟩
  have hv' := Coefficients.validate_succ alpha s m hv
  obtain ⟨x1, h1⟩ := Coefficients.dnlc_ok L alpha (s + 1) (j - 1) (n - 1) m hv'
  obtain ⟨x2, h2⟩ := Coefficients.dnlc_ok L alpha (s + 1) j (n - 1) m hv'
  obtain ⟨x3, h3⟩ := Coefficients.dnlc_ok L alpha (s + 1) (j + 1) (n - 1) m hv'
  obtain ⟨x4, h4⟩ := Coefficients.dnlc_ok L alpha (s + 1) j (n - 2) m hv'
  exact ⟨x1, x2, x3, x4, h1, h2, h3, h4,
    Coefficients.dnlc_step L alpha s j n m x1 x2 x3 x4 hn hv h1 h2 h3 h4⟩

/-- Witness for C1 at α = 1/2, s = 1/2, j = 1, n = 2, the hyper method. -/
theorem dnlc_recurrence_witness :
    ∃ x1 x2 x3 x4,
      Coefficients.dnlc testLib (1/2) (1/2 + 1) (1 - 1) (2 - 1) "hyper" = .ok x1 ∧
      Coefficients.dnlc testLib (1/2) (1/2 + 1) 1 (2 - 1) "hyper" = .ok x2 ∧
      Coefficients.dnlc testLib (1/2) (1/2 + 1) (1 + 1) (2 - 1) "hyper" = .ok x3 ∧
      Coefficients.dnlc testLib (1/2) (1/2 + 1) 1 (2 - 2) "hyper" = .ok x4 ∧
      Coefficients.dnlc testLib (1/2) (1/2) 1 2 "hyper" =
        .ok ((1/2) * (x1 - 2 * (1/2) * x2 + x3 - 2 * (((2 : ℤ) : ℚ) - 1) * x4)) :=
  dnlc_recurrence testLib (1/2) (1/2) 1 2 "hyper" (Or.inl rfl) (by norm_num) (by norm_num)
    (by norm_num)

/-- C2: for every valid input, `evaluate` succeeds with a value, and for
n ≤ 0 `derivative` returns `max(0, n+1)` times that value; in particular
n = 0 returns exactly what `evaluate` returns, and n < 0 returns exactly
zero. -/
theorem dnlc_base_identity (L : NumLib) (alpha s : ℚ) (j n : ℤ) (m : String)
    (hm : m = "hyper" ∨ m = "brute") (ha : alpha ≤ 1) (hs : 0 ≤ s) :
    Coefficients.lc L alpha s j m = .ok (Coefficients.lcVal L alpha s j m) ∧
    (n ≤ 0 → Coefficients.dnlc L alpha s j n m =
        .ok (((max 0 (n + 1) : ℤ) : ℚ) * Coefficients.lcVal L alpha s j m)) ∧
    Coefficients.dnlc L alpha s j 0 m = Coefficients.lc L alpha s j m ∧
    (n < 0 → Coefficients.dnlc L alpha s j n m = .ok 0) := by
  have hv : Coefficients.validate_inputs alpha s m = .ok () :=
    (Coefficients.validate_ok_iff alpha s m).mpr ⟨hm, ha, hs⟩
  refine ⟨Coefficients.lc_ok L alpha s j m hv,
    fun hn => Coefficients.dnlc_base L alpha s j n m hn hv, ?_, ?_⟩
  · rw [Coefficients.dnlc_base L alpha s j 0 m le_rfl hv,
      Coefficients.lc_ok L alpha s j m hv]
    norm_num
  · intro hn
    rw [Coefficients.dnlc_base L alpha s j n m (by omega) hv]
    have hmax : (max 0 (n + 1) : ℤ) = 0 := by omega
    rw [hmax]
    norm_num

/-- Witness for C2 at α = 1/2, s = 0, j = 3, n = −2, the brute method. -/
theorem dnlc_base_identity_witness :
    Coefficients.lc testLib (1/2) 0 3 "brute" =
      .ok (Coefficients.lcVal testLib (1/2) 0 3 "brute") ∧
    ((-2 : ℤ) ≤ 0 → Coefficients.dnlc testLib (1/2) 0 3 (-2) "brute" =
        .ok (((max 0 (-2 + 1) : ℤ) : ℚ) * Coefficients.lcVal testLib (1/2) 0 3 "brute")) ∧
    Coefficients.dnlc testLib (1/2) 0 3 0 "brute" = Coefficients.lc testLib (1/2) 0 3 "brute" ∧
    ((-2 : ℤ) < 0 → Coefficients.dnlc testLib (1/2) 0 3 (-2) "brute" = .ok 0) :=
  dnlc_base_identity testLib (1/2) 0 3 (-2) "brute" (Or.inr rfl) (by norm_num) le_rfl

/-- C3 (amended): for every valid input with |j| ≤ 20 — so that the int64
factorial product `np.prod(np.arange(1, j+1))` does not overflow — the
closed-form strategy of `lc` returns
`2·[(s)_{j′}/j′!]·α^{j′}·₂F₁(s, s+j′; j′+1; α²)` with j′ = |j|, where the
rising factorial `(s)_{j′}` is the product of the j′ consecutive terms
s, s+1, …, s+j′−1 (empty product 1) and j′! is the exact factorial, the
hypergeometric oracle being evaluated at α².  For |j| ≥ 21 the factorial
factor wraps in int64 and the exact formula fails (see the
counterexample). -/
theorem lc_closed_form (L : NumLib) (alpha s : ℚ) (j : ℤ)
    (ha : alpha ≤ 1) (hs : 0 ≤ s) (hj : j.natAbs ≤ 20) :
    Coefficients.lc L alpha s j "hyper" =
      .ok (2 * (risingFactorial s j.natAbs / (Nat.factorial j.natAbs : ℚ)) *
            alpha ^ j.natAbs *
            L.hyp2f1 s (s + (j.natAbs : ℚ)) ((j.natAbs : ℚ) + 1) (alpha * alpha)) := by
  have hv : Coefficients.validate_inputs alpha s "hyper" = .ok () :=
    (Coefficients.validate_ok_iff alpha s "hyper").mpr ⟨Or.inl rfl, ha, hs⟩
  rw [Coefficients.lc_ok L alpha s j "hyper" hv, Coefficients.lcVal]
  rw [if_pos rfl, prod_consecutive, int64prod_factorial j.natAbs hj, Int.cast_natCast]

/-- Witness for C3 at α = 1/2, s = 1/2, j = −3. -/
theorem lc_closed_form_witness :
    Coefficients.lc testLib (1/2) (1/2) (-3) "hyper" =
      .ok (2 * (risingFactorial (1/2) (-3 : ℤ).natAbs /
              (Nat.factorial (-3 : ℤ).natAbs : ℚ)) *
            (1/2) ^ (-3 : ℤ).natAbs *
            testLib.hyp2f1 (1/2) (1/2 + ((-3 : ℤ).natAbs : ℚ))
              (((-3 : ℤ).natAbs : ℚ) + 1) ((1/2) * (1/2))) :=
  lc_closed_form testLib (1/2) (1/2) (-3) (by norm_num) (by norm_num) (by decide)

/-- Counterexample to C3 as originally stated: at the valid input α = 1/2,
s = 1/2, j = 21, `lc` does not return the exact closed-form value, because
the source's factorial `np.prod(np.arange(1, 22))` wraps in int64 to
−4249290049419214848 instead of 21! = 51090942171709440000. -/
theorem lc_closed_form_counterexample :
    Coefficients.lc testLib (1/2) (1/2) 21 "hyper" ≠
      .ok (2 * (risingFactorial (1/2) (21 : ℤ).natAbs /
              (Nat.factorial (21 : ℤ).natAbs : ℚ)) *
            (1/2) ^ (21 : ℤ).natAbs *
            testLib.hyp2f1 (1/2) (1/2 + ((21 : ℤ).natAbs : ℚ))
              (((21 : ℤ).natAbs : ℚ) + 1) ((1/2) * (1/2))) := by
  have hv : Coefficients.validate_inputs (1/2) (1/2) "hyper" = .ok () :=
    (Coefficients.validate_ok_iff (1/2) (1/2) "hyper").mpr ⟨Or.inl rfl, by norm_num, by norm_num⟩
  have hna : (21 : ℤ).natAbs = 21 := rfl
  have hwrap : int64prod ((List.range 21).map (fun i : ℕ => (i : ℤ) + 1)) =
      -4249290049419214848 := by decide
  have hfact : Nat.factorial 21 = 51090942171709440000 := by decide
  have hT : testLib.hyp2f1 (1/2) (1/2 + ((21 : ℕ) : ℚ)) (((21 : ℕ) : ℚ) + 1) ((1/2) * (1/2)) =
      177 / 4 := by
    show (1/2 : ℚ) + (1/2 + ((21 : ℕ) : ℚ)) + (((21 : ℕ) : ℚ) + 1) + (1/2) * (1/2) = 177 / 4
    push_cast
    norm_num
  have hR : 0 < risingFactorial (1/2 : ℚ) 21 := risingFactorial_pos (1/2) (by norm_num) 21
  rw [Coefficients.lc_ok testLib (1/2) (1/2) 21 "hyper" hv, Coefficients.lcVal,
      if_pos rfl, prod_consecutive, hna, hwrap, hfact, hT]
  simp only [ne_eq, Except.ok.injEq]
  intro h
  have hTne : (177 / 4 : ℚ) ≠ 0 := by norm_num
  have he : ((1/2 : ℚ)) ^ (21 : ℕ) ≠ 0 := by positivity
  have h1 := mul_right_cancel₀ hTne h
  have h2 := mul_right_cancel₀ he h1
  have h3 := mul_left_cancel₀ (by norm_num : (2 : ℚ) ≠ 0) h2
  have hc1 : ((-4249290049419214848 : ℤ) : ℚ) ≠ 0 := by norm_num
  have hc2 : ((51090942171709440000 : ℕ) : ℚ) ≠ 0 := by norm_num
  rw [div_eq_div_iff hc1 hc2] at h3
  have h4 := mul_left_cancel₀ (ne_of_gt hR) h3
  norm_num at h4

/-- C5: the recursion of `dnlc` is safe: if the top-level arguments pass
validation then the shifted pair (α, s+1) that every recursive sub-call
re-validates also passes the same checks, and the whole evaluation tree
returns a value — no recursive or leaf call ever raises. -/
theorem dnlc_recursion_safe (L : NumLib) (alpha s : ℚ) (j n : ℤ) (m : String)
    (hm : m = "hyper" ∨ m = "brute") (ha : alpha ≤ 1) (hs : 0 ≤ s) :
    Coefficients.validate_inputs alpha (s + 1) m = .ok () ∧
    ∃ x, Coefficients.dnlc L alpha s j n m = .ok x := by
  have hv : Coefficients.validate_inputs alpha s m = .ok () :=
    (Coefficients.validate_ok_iff alpha s m).mpr ⟨hm, ha, hs⟩
  exact ⟨Coefficients.validate_succ alpha s m hv, Coefficients.dnlc_ok L alpha s j n m hv⟩

/-- Witness for C5 at α = 1/2, s = 1/2, j = 2, n = 3, the hyper method. -/
theorem dnlc_recursion_safe_witness :
    Coefficients.validate_inputs (1/2) (1/2 + 1) "hyper" = .ok () ∧
    ∃ x, Coefficients.dnlc testLib (1/2) (1/2) 2 3 "hyper" = .ok x :=
  dnlc_recursion_safe testLib (1/2) (1/2) 2 3 "hyper" (Or.inl rfl) (by norm_num) (by norm_num)

/-- C4: `lc` and `dnlc` fail before any numeric work exactly as the
validator does, independently of the numeric-library oracles: the error is
`invalidMethod` exactly when the method is not one of the two recognized
identifiers, and (the method check running first) for a recognized method
the error is one of the two InvalidDomain errors exactly when α > 1 or
s < 0; every α ≤ 1 — including negative α, the lower bound being
unenforced — together with every s ≥ 0 (s = 0 included) passes
validation. -/
theorem validation_characterization (L : NumLib) (alpha s : ℚ) (j n : ℤ) (m : String)
    (e : LapErr) :
    (Coefficients.lc L alpha s j m = .error e ↔
      Coefficients.validate_inputs alpha s m = .error e) ∧
    (Coefficients.dnlc L alpha s j n m = .error e ↔
      Coefficients.validate_inputs alpha s m = .error e) ∧
    (Coefficients.validate_inputs alpha s m = .error .invalidMethod ↔
      ¬(m = "hyper" ∨ m = "brute")) ∧
    ((m = "hyper" ∨ m = "brute") →
      ((∃ e2, Coefficients.validate_inputs alpha s m = .error e2 ∧ e2.isDomain = true) ↔
        (1 < alpha ∨ s < 0))) ∧
    (((m = "hyper" ∨ m = "brute") ∧ alpha ≤ 1 ∧ 0 ≤ s) →
      Coefficients.validate_inputs alpha s m = .ok ()) := by
  refine ⟨?_, ?_, ?_, ?_, fun h => (Coefficients.validate_ok_iff alpha s m).mpr h⟩
  · constructor
    · intro h
      cases hval : Coefficients.validate_inputs alpha s m with
      | error e2 =>
        rw [Coefficients.lc_error L alpha s j m e2 hval] at h
        injection h with h2
        rw [← h2]
      | ok u =>
        cases u
        rw [Coefficients.lc_ok L alpha s j m hval] at h
        cases h
    · intro h
      exact Coefficients.lc_error L alpha s j m e h
  · constructor
    · intro h
      cases hval : Coefficients.validate_inputs alpha s m with
      | error e2 =>
        rw [Coefficients.dnlc_of_validate_error L alpha s j n m e2 hval] at h
        injection h with h2
        rw [← h2]
      | ok u =>
        cases u
        obtain ⟨x, hx⟩ := Coefficients.dnlc_ok L alpha s j n m hval
        rw [hx] at h
        cases h
    · intro h
      exact Coefficients.dnlc_of_validate_error L alpha s j n m e h
  · unfold Coefficients.validate_inputs
    by_cases h1 : (m = "hyper" ∨ m = "brute")
    · rw [if_neg (not_not_intro h1)]
      constructor
      · intro h
        by_cases h2 : alpha > 1
        · rw [if_pos h2] at h
          injection h with h2x
          cases h2x
        · rw [if_neg h2] at h
          by_cases h3 : s < 0
          · rw [if_pos h3] at h
            injection h with h3x
            cases h3x
          · rw [if_neg h3] at h
            cases h
      · intro h
        exact absurd h1 h
    · rw [if_pos h1]
      exact ⟨fun _ => h1, fun _ => rfl⟩
  · intro hm
    constructor
    · rintro ⟨e2, he, _⟩
      by_contra hc
      push_neg at hc
      obtain ⟨hc1, hc2⟩ := hc
      rw [(Coefficients.validate_ok_iff alpha s m).mpr ⟨hm, hc1, hc2⟩] at he
      cases he
    · intro hor
      unfold Coefficients.validate_inputs
      rw [if_neg (not_not_intro hm)]
      by_cases h2 : alpha > 1
      · rw [if_pos h2]
        exact ⟨.invalidDomainAlpha, rfl, rfl⟩
      · have h3 : s < 0 := by
          rcases hor with h | h
          · exact absurd h h2
          · exact h
        rw [if_neg h2, if_pos h3]
        exact ⟨.invalidDomainS, rfl, rfl⟩

/-- Witness for C4 at α = 2, s = 1/2, method `"bogus"`: both the method and
α are invalid, and the failure is `invalidMethod` because that check runs
first. -/
theorem validation_characterization_witness :
    (Coefficients.lc testLib 2 (1/2) 0 "bogus" = .error .invalidMethod ↔
      Coefficients.validate_inputs 2 (1/2) "bogus" = .error .invalidMethod) ∧
    (Coefficients.dnlc testLib 2 (1/2) 0 1 "bogus" = .error .invalidMethod ↔
      Coefficients.validate_inputs 2 (1/2) "bogus" = .error .invalidMethod) ∧
    (Coefficients.validate_inputs 2 (1/2) "bogus" = .error .invalidMethod ↔
      ¬("bogus" = "hyper" ∨ "bogus" = "brute")) ∧
    (("bogus" = "hyper" ∨ "bogus" = "brute") →
      ((∃ e2, Coefficients.validate_inputs 2 (1/2) "bogus" = .error e2 ∧ e2.isDomain = true) ↔
        ((1 : ℚ) < 2 ∨ (1/2 : ℚ) < 0))) ∧
    ((("bogus" = "hyper" ∨ "bogus" = "brute") ∧ (2 : ℚ) ≤ 1 ∧ (0 : ℚ) ≤ 1/2) →
      Coefficients.validate_inputs 2 (1/2) "bogus" = .ok ()) :=
  validation_characterization testLib 2 (1/2) 0 1 "bogus" .invalidMethod

/-- C6: for every valid input and either method, `lc` is even in j.  The
closed-form branch takes |j| before computing; the quadrature branch
integrates a pointwise identical integrand because the cosine oracle — like
the real cosine the source applies — is an even function, which is the one
assumption made of it here. -/
theorem lc_even_in_j (L : NumLib) (alpha s : ℚ) (j : ℤ) (m : String)
    (hm : m = "hyper" ∨ m = "brute") (ha : alpha ≤ 1) (hs : 0 ≤ s)
    (hcos : ∀ x, L.cos (-x) = L.cos x) :
    Coefficients.lc L alpha s j m = Coefficients.lc L alpha s (-j) m := by
  have hv : Coefficients.validate_inputs alpha s m = .ok () :=
    (Coefficients.validate_ok_iff alpha s m).mpr ⟨hm, ha, hs⟩
  rw [Coefficients.lc_ok L alpha s j m hv, Coefficients.lc_ok L alpha s (-j) m hv]
  unfold Coefficients.lcVal
  by_cases hmm : m = "hyper"
  · rw [if_pos hmm, if_pos hmm, Int.natAbs_neg]
  · rw [if_neg hmm, if_neg hmm]
    have hfun : (fun t => L.cos (((-j : ℤ) : ℚ) * t) *
        L.fpow (1 - 2 * alpha * L.cos t + alpha * alpha) (-s)) =
        (fun t => L.cos ((j : ℚ) * t) *
        L.fpow (1 - 2 * alpha * L.cos t + alpha * alpha) (-s)) := by
      funext t
      rw [Int.cast_neg, neg_mul, hcos]
    rw [hfun]

/-- Witness for C6 at α = 1/2, s = 1/2, j = 2, the brute method, with the
even concrete cosine of `testLib`. -/
theorem lc_even_in_j_witness :
    Coefficients.lc testLib (1/2) (1/2) 2 "brute" =
      Coefficients.lc testLib (1/2) (1/2) (-2) "brute" :=
  lc_even_in_j testLib (1/2) (1/2) 2 "brute" (Or.inr rfl) (by norm_num) (by norm_num)
    (fun x => by show (-x) * (-x) = x * x; ring)

/-- C7: the two parallel implementations agree: on every valid input the
`lc` and `dnlc` of `src/laplace/coefficients.py` return exactly the same
result as the `lc` and `dnlc` of `src/laplace/laplace.py`. -/
theorem implementations_agree (L : NumLib) (a s : ℚ) (j n : ℤ) (m : String)
    (hm : m = "hyper" ∨ m = "brute") (ha : a ≤ 1) (hs : 0 ≤ s) :
    Coefficients.lc L a s j m = LaplaceMod.lc L a s j m ∧
    Coefficients.dnlc L a s j n m = LaplaceMod.dnlc L a s j n m := by
  have hv : Coefficients.validate_inputs a s m = .ok () :=
    (Coefficients.validate_ok_iff a s m).mpr ⟨hm, ha, hs⟩
  exact ⟨(LaplaceMod.lc_agrees L a s j m).symm, (LaplaceMod.dnlc_agrees L a s j n m hv).symm⟩

/-- Witness for C7 at α = 1/2, s = 1/2, j = 1, n = 2, the hyper method. -/
theorem implementations_agree_witness :
    Coefficients.lc testLib (1/2) (1/2) 1 "hyper" = LaplaceMod.lc testLib (1/2) (1/2) 1 "hyper" ∧
    Coefficients.dnlc testLib (1/2) (1/2) 1 2 "hyper" =
      LaplaceMod.dnlc testLib (1/2) (1/2) 1 2 "hyper" :=
  implementations_agree testLib (1/2) (1/2) 1 2 "hyper" (Or.inl rfl) (by norm_num) (by norm_num)

/-- C9: `dnlc` is a total function of all its arguments — for every integer
n (positive, zero or negative) it satisfies its defining recursion, whose
sub-calls drop n by 1 or by 2 until the base case fires at n ≤ 0 — and the
depth `recDepth` of that call tree equals n (clamped to 0 for n ≤ 0). -/
theorem dnlc_total_and_depth (L : NumLib) (alpha s : ℚ) (j n : ℤ) (m : String) :
    Coefficients.dnlc L alpha s j n m =
      (match Coefficients.validate_inputs alpha s m with
       | .error e => .error e
       | .ok _ =>
         if n ≤ 0 then
           match Coefficients.lc L alpha s j m with
           | .error e => .error e
           | .ok x => .ok (((max 0 (n + 1) : ℤ) : ℚ) * x)
         else
           match Coefficients.dnlc L alpha (s + 1) (j - 1) (n - 1) m,
                 Coefficients.dnlc L alpha (s + 1) j (n - 1) m,
                 Coefficients.dnlc L alpha (s + 1) (j + 1) (n - 1) m,
                 Coefficients.dnlc L alpha (s + 1) j (n - 2) m with
           | .error e, _, _, _ => .error e
           | _, .error e, _, _ => .error e
           | _, _, .error e, _ => .error e
           | _, _, _, .error e => .error e
           | .ok x1, .ok x2, .ok x3, .ok x4 =>
             .ok (s * (x1 - 2 * alpha * x2 + x3 - 2 * ((n : ℚ) - 1) * x4))) ∧
    (recDepth n : ℤ) = max n 0 := by
  constructor
  · rw [Coefficients.dnlc]
  · exact recDepth_eq_aux n.toNat n le_rfl

/-- C10: for n < 0, `dnlc` is not unconditionally zero — it is exactly
`lc`'s outcome with the value multiplied afterwards by `max(0, n+1)`, which
is 0; in particular it still validates, so on invalid inputs it raises the
validator's error even though a successful result would be multiplied by
zero. -/
theorem dnlc_negative_still_validates (L : NumLib) (alpha s : ℚ) (j n : ℤ) (m : String)
    (e : LapErr) (hn : n < 0) :
    Coefficients.dnlc L alpha s j n m =
      Except.map (fun x => ((max 0 (n + 1) : ℤ) : ℚ) * x) (Coefficients.lc L alpha s j m) ∧
    (max 0 (n + 1) : ℤ) = 0 ∧
    (Coefficients.validate_inputs alpha s m = .error e →
      Coefficients.dnlc L alpha s j n m = .error e) := by
  refine ⟨?_, by omega, fun hv => Coefficients.dnlc_of_validate_error L alpha s j n m e hv⟩
  cases hval : Coefficients.validate_inputs alpha s m with
  | error e2 =>
    rw [Coefficients.dnlc_of_validate_error L alpha s j n m e2 hval,
        Coefficients.lc_error L alpha s j m e2 hval]
    rfl
  | ok u =>
    cases u
    rw [Coefficients.dnlc_base L alpha s j n m (by omega) hval,
        Coefficients.lc_ok L alpha s j m hval]
    rfl

/-- Witness for C10 at the invalid α = 2 with n = −1: the call still fails
with the α domain error rather than returning 0. -/
theorem dnlc_negative_still_validates_witness :
    Coefficients.dnlc testLib 2 (1/2) 0 (-1) "hyper" =
      Except.map (fun x => ((max 0 (-1 + 1) : ℤ) : ℚ) * x)
        (Coefficients.lc testLib 2 (1/2) 0 "hyper") ∧
    (max 0 (-1 + 1) : ℤ) = 0 ∧
    (Coefficients.validate_inputs 2 (1/2) "hyper" = .error .invalidDomainAlpha →
      Coefficients.dnlc testLib 2 (1/2) 0 (-1) "hyper" = .error .invalidDomainAlpha) :=
  dnlc_negative_still_validates testLib 2 (1/2) 0 (-1) "hyper" .invalidDomainAlpha (by norm_num)
